import Mathlib

/-!
Shallow embedding of the face-swap pipeline of `face_swap.py`
(`load_and_prepare_image`, `detect_landmarks`, `warp_triangle`, `swap_faces`).

Modelling conventions:
* images are row-major lists of rows of RGB pixels (8-bit channels as `Nat`);
* machine floating point is modelled by exact rationals (`ℚ`);
* external library calls (dlib detection, `cv2.convexHull`,
  `cv2.Subdiv2D` Delaunay triangulation) are oracle parameters;
* `cv2.fillConvexPoly` is modelled as the exact indicator of the convex
  triangle (the source requests anti-aliased edges; the model idealises the
  coverage as binary, which is the 1-inside/0-outside mask the enclosing
  design describes);
* `cv2.getAffineTransform` / `cv2.invertAffineTransform` are the exact
  closed-form solutions (Cramer), returning the zero map on singular input
  (the library leaves the result unspecified there);
* `cv2.warpAffine` with `INTER_LINEAR` and `BORDER_REFLECT_101` is exact
  bilinear interpolation with reflect-101 border indexing, rounded to the
  nearest integer channel value (the library output dtype is `uint8`);
* the numpy in-place store `img2[...] = float_array` truncates each channel
  toward zero (C cast), modelled by `Int.floor` on the nonnegative values.
-/

/-- A 2D integer point, as the landmark coordinates of `face_swap.py`. -/
abbrev Pt := Int × Int

/-- Componentwise subtraction of points. -/
def psub (u v : Pt) : Pt := (u.1 - v.1, u.2 - v.2)

/-- 2D cross product of two vectors. -/
def cross (u v : Pt) : Int := u.1 * v.2 - u.2 * v.1

/-- An RGB pixel, three 8-bit channels (values kept in `Nat`). -/
abbrev Pixel := Nat × Nat × Nat

/-- A pixel with rational channels (floating-point intermediates). -/
abbrev QPix := ℚ × ℚ × ℚ

/-- Cast an integer pixel to rational channels. -/
def toQPix (p : Pixel) : QPix := ((p.1 : ℚ), (p.2.1 : ℚ), (p.2.2 : ℚ))

/-- Channelwise addition of rational pixels. -/
def qAdd (u v : QPix) : QPix := (u.1 + v.1, u.2.1 + v.2.1, u.2.2 + v.2.2)

/-- Channelwise scaling of a rational pixel. -/
def qSmul (c : ℚ) (u : QPix) : QPix := (c * u.1, c * u.2.1, c * u.2.2)

/-- Truncate rational channels toward zero into integer channels, as the
numpy store `img2[...] = float_array` does on the nonnegative blend values. -/
def floorPix (u : QPix) : Pixel :=
  ((Int.floor u.1).toNat, (Int.floor u.2.1).toNat, (Int.floor u.2.2).toNat)

/-- Round rational channels to the nearest integer channel value. -/
def roundPix (u : QPix) : Pixel :=
  ((round u.1).toNat, (round u.2.1).toNat, (round u.2.2).toNat)

/-- An image: a list of rows of pixels (row-major, as a numpy `uint8`
array of shape `(height, width, 3)`). -/
structure Image where
  data : List (List Pixel)
deriving DecidableEq

/-- Number of rows. -/
def Image.height (img : Image) : Nat := img.data.length

/-- Number of columns (length of the first row). -/
def Image.width (img : Image) : Nat := (img.data.headD []).length

/-- Well-formed image: every row has the common width. -/
def Image.wf (img : Image) : Prop := ∀ row ∈ img.data, row.length = img.width

instance (img : Image) : Decidable img.wf :=
  inferInstanceAs (Decidable (∀ row ∈ img.data, row.length = img.width))

/-- Read the pixel at row `y`, column `x` (out-of-range reads default). -/
def Image.getPx (img : Image) (y x : Nat) : Pixel :=
  (img.data.getD y []).getD x (0, 0, 0)

/-- Variant of `List.map` carrying the element index, used to model in-place region stores. -/
def mapWithIdx {α β : Type} (f : Nat → α → β) : Nat → List α → List β
  | _, [] => []
  | i, a :: as => f i a :: mapWithIdx f (i + 1) as

/-- An axis-aligned integer rectangle `(x, y, w, h)` as `cv2.boundingRect`. -/
structure Rect where
  x : Int
  y : Int
  w : Int
  h : Int
deriving DecidableEq

/-- A triangle: three points, as the 3-row point arrays of the source. -/
abbrev Triple (α : Type) := α × α × α

/-- Model of `cv2.boundingRect` on three integer points: minimal corner and an
inclusive extent of one past the maximal coordinate. -/
def boundingRect (t : Triple Pt) : Rect :=
  let x0 := min t.1.1 (min t.2.1.1 t.2.2.1)
  let y0 := min t.1.2 (min t.2.1.2 t.2.2.2)
  let x1 := max t.1.1 (max t.2.1.1 t.2.2.1)
  let y1 := max t.1.2 (max t.2.1.2 t.2.2.2)
  ⟨x0, y0, x1 - x0 + 1, y1 - y0 + 1⟩

/-- Translate the triangle's vertices into the rectangle's local frame
(the `t1_rect` / `t2_rect` lists of `warp_triangle`). -/
def localTriple (t : Triple Pt) (r : Rect) : Triple Pt :=
  (psub t.1 (r.x, r.y), psub t.2.1 (r.x, r.y), psub t.2.2 (r.x, r.y))

/-- Dot product of two integer vectors. -/
def pdot (u v : Pt) : Int := u.1 * v.1 + u.2 * v.2

/-- Test that `p` lies on the closed segment from `u` to `v`. -/
def onSegB (u v p : Pt) : Bool :=
  decide (cross (psub v u) (psub p u) = 0 ∧ pdot (psub p u) (psub p v) ≤ 0)

/-- Membership of `p` in the convex hull of `{a, b, c}`: the sign test on
the three edge cross products for a proper triangle, and the union of the
three closed edge segments when the vertices are collinear; this is the
idealised coverage of `cv2.fillConvexPoly` on the triangle. -/
def inConvTriB (a b c p : Pt) : Bool :=
  if cross (psub b a) (psub c a) = 0 then
    onSegB a b p || onSegB b c p || onSegB c a p
  else
    let d1 := cross (psub b a) (psub p a)
    let d2 := cross (psub c b) (psub p b)
    let d3 := cross (psub a c) (psub p c)
    decide ((0 ≤ d1 ∧ 0 ≤ d2 ∧ 0 ≤ d3) ∨ (d1 ≤ 0 ∧ d2 ≤ 0 ∧ d3 ≤ 0))

/-- The per-triangle fill mask of `warp_triangle`, sampled at a local
pixel: 1 inside the local destination triangle, 0 outside. -/
def maskVal (t2r : Triple Pt) (lx ly : Int) : ℚ :=
  if inConvTriB t2r.1 t2r.2.1 t2r.2.2 (lx, ly) then 1 else 0

/-- A 2D affine map `(x, y) ↦ (a x + b y + c, d x + e y + f)`. -/
structure Aff where
  a : ℚ
  b : ℚ
  c : ℚ
  d : ℚ
  e : ℚ
  f : ℚ
deriving DecidableEq

/-- Apply an affine map to a rational point. -/
def applyAff (m : Aff) (p : ℚ × ℚ) : ℚ × ℚ :=
  (m.a * p.1 + m.b * p.2 + m.c, m.d * p.1 + m.e * p.2 + m.f)

/-- Model of `cv2.getAffineTransform`: the unique affine map sending the three
source points to the three destination points, by Cramer's rule; the zero
map on collinear (singular) input, where the library result is
unspecified. -/
def getAffineTransform (p1 p2 p3 q1 q2 q3 : ℚ × ℚ) : Aff :=
  let dd := (p2.1 - p1.1) * (p3.2 - p1.2) - (p3.1 - p1.1) * (p2.2 - p1.2)
  if dd = 0 then ⟨0, 0, 0, 0, 0, 0⟩ else
    let a := ((q2.1 - q1.1) * (p3.2 - p1.2) - (q3.1 - q1.1) * (p2.2 - p1.2)) / dd
    let b := ((q3.1 - q1.1) * (p2.1 - p1.1) - (q2.1 - q1.1) * (p3.1 - p1.1)) / dd
    let d := ((q2.2 - q1.2) * (p3.2 - p1.2) - (q3.2 - q1.2) * (p2.2 - p1.2)) / dd
    let e := ((q3.2 - q1.2) * (p2.1 - p1.1) - (q2.2 - q1.2) * (p3.1 - p1.1)) / dd
    ⟨a, b, q1.1 - a * p1.1 - b * p1.2, d, e, q1.2 - d * p1.1 - e * p1.2⟩

/-- Invert an affine map (`cv2.warpAffine` inverts the forward map before
sampling); the zero map when singular. -/
def invertAffine (m : Aff) : Aff :=
  let det := m.a * m.e - m.b * m.d
  if det = 0 then ⟨0, 0, 0, 0, 0, 0⟩ else
    ⟨m.e / det, -m.b / det, (m.b * m.f - m.c * m.e) / det,
     -m.d / det, m.a / det, (m.c * m.d - m.a * m.f) / det⟩

/-- The `BORDER_REFLECT_101` index folding into `[0, n)`. -/
def reflect101 (n : Nat) (i : Int) : Nat :=
  if n ≤ 1 then 0 else
    let p : Int := 2 * (n : Int) - 2
    let j := i % p
    if j < (n : Int) then j.toNat else (p - j).toNat

/-- Cast an integer point to a rational point. -/
def ptQ (p : Pt) : ℚ × ℚ := ((p.1 : ℚ), (p.2 : ℚ))

/-- Exact bilinear sampling of an image at a rational position, with
reflect-101 border handling (`cv2.warpAffine` with `INTER_LINEAR` and
`BORDER_REFLECT_101`). -/
def bilinearQ (img : Image) (q : ℚ × ℚ) : QPix :=
  let x0 : Int := Int.floor q.1
  let y0 : Int := Int.floor q.2
  let fx : ℚ := q.1 - (x0 : ℚ)
  let fy : ℚ := q.2 - (y0 : ℚ)
  let gp : Int → Int → QPix := fun xi yi =>
    toQPix (img.getPx (reflect101 img.height yi) (reflect101 img.width xi))
  qAdd (qSmul ((1 - fy) * (1 - fx)) (gp x0 y0))
    (qAdd (qSmul ((1 - fy) * fx) (gp (x0 + 1) y0))
      (qAdd (qSmul (fy * (1 - fx)) (gp x0 (y0 + 1)))
        (qSmul (fy * fx) (gp (x0 + 1) (y0 + 1)))))

/-- One warped sample: invert the affine map, bilinearly sample the source
crop there, and round to the `uint8` output depth of `cv2.warpAffine`. -/
def warpSample (src : Image) (minv : Aff) (lx ly : Int) : Pixel :=
  roundPix (bilinearQ src (applyAff minv ((lx : ℚ), (ly : ℚ))))

/-- Crop an image to a rectangle with numpy slice-clipping semantics
(`img1[r1[1]:r1[1]+r1[3], r1[0]:r1[0]+r1[2]]` for nonnegative offsets). -/
def cropImage (img : Image) (r : Rect) : Image :=
  ⟨((img.data.drop r.y.toNat).take r.h.toNat).map
    (fun row => (row.drop r.x.toNat).take r.w.toNat)⟩

/-- The affine map of `warp_triangle` between two local triangles. -/
def affineOfTriples (t1r t2r : Triple Pt) : Aff :=
  getAffineTransform (ptQ t1r.1) (ptQ t1r.2.1) (ptQ t1r.2.2)
    (ptQ t2r.1) (ptQ t2r.2.1) (ptQ t2r.2.2)

/-- The warped source content of `warp_triangle` at a local destination
pixel: crop the source at the source bounding rectangle, then sample it
through the inverted local affine map. -/
def warpedValue (img1 : Image) (t1 t2 : Triple Pt) (lx ly : Int) : Pixel :=
  let r1 := boundingRect t1
  let r2 := boundingRect t2
  let minv := invertAffine (affineOfTriples (localTriple t1 r1) (localTriple t2 r2))
  warpSample (cropImage img1 r1) minv lx ly

/-- The mask of `warp_triangle` at a local destination pixel. -/
def maskValue (t2 : Triple Pt) (lx ly : Int) : ℚ :=
  maskVal (localTriple t2 (boundingRect t2)) lx ly

/-- Blend one destination pixel with one warped pixel through a mask
weight: `dest * (1 - mask) + warp * mask`, channelwise in floating point. -/
def blendQ (dest warp : Pixel) (m : ℚ) : QPix :=
  qAdd (qSmul (1 - m) (toQPix dest)) (qSmul m (toQPix warp))

/-- Membership of an absolute pixel in a rectangle. -/
def inRectAbs (r : Rect) (x y : Int) : Bool :=
  decide (r.x ≤ x ∧ x < r.x + r.w ∧ r.y ≤ y ∧ y < r.y + r.h)

/-- Model of `warp_triangle(img1, img2, t1, t2)`: blend the warped source triangle
into the destination bounding rectangle and store the result back; the
returned image is the updated destination buffer. -/
def warpTriangle (img1 img2 : Image) (t1 t2 : Triple Pt) : Image :=
  let r2 := boundingRect t2
  ⟨mapWithIdx (fun y row => mapWithIdx (fun x p =>
      if inRectAbs r2 (x : Int) (y : Int) then
        let lx : Int := (x : Int) - r2.x
        let ly : Int := (y : Int) - r2.y
        floorPix (blendQ p (warpedValue img1 t1 t2 lx ly) (maskValue t2 lx ly))
      else p) 0 row) 0 img2.data⟩

/-- A landmark set: the ordered 2D integer points of one detected face
(`np.array([[p.x, p.y] for p in landmarks.parts()])`). -/
abbrev Landmarks := List Pt

/-- Model of `detect_landmarks(image)`: raises on a `None` input image; with a
valid image, asks the external detector for faces, returns the absent
value when none is found, and otherwise runs the external predictor on
the FIRST face of the detector's result list.  The detector and the
predictor (dlib) are oracle parameters; the dtype/grayscale conversion
preamble only reformats the oracle's input and is not modelled. -/
def detectLandmarks {Face : Type} (img : Option Image)
    (detector : Image → List Face)
    (predictor : Image → Face → Landmarks) :
    Except String (Option (Face × Landmarks)) :=
  match img with
  | none => .error ("Input image is None")
  | some im =>
    match detector im with
    | [] => .ok none
    | f :: _ => .ok (some (f, predictor im f))

/-- The landmarks `swap_faces` obtains from `detect_landmarks` for one
(non-`None`) image: `some` landmarks or `none` when no face was found. -/
def landmarksOf {Face : Type} (detector : Image → List Face)
    (predictor : Image → Face → Landmarks) (img : Image) : Option Landmarks :=
  match detectLandmarks (some img) detector predictor with
  | .ok (some (_, lm)) => some lm
  | _ => none

/-- Hull point list: apply each hull index to a landmark point list
(`hull_points.append(points[hull2[i][0]])`). -/
def hullPoints (points : Landmarks) (hullIdx : List Nat) : List Pt :=
  hullIdx.map (fun i => points.getD i (0, 0))

/-- Index of the first exact match of `pt` in a point list
(`np.where((hull_points2 == pt).all(axis=1))[0]`, first entry). -/
def findFirstIdx (pt : Pt) : List Pt → Option Nat
  | [] => none
  | q :: rest => if q = pt then some 0 else (findFirstIdx pt rest).map (· + 1)

/-- Resolve one triangle vertex: the first index of the vertex in the
destination hull points, mapped to the source hull point at that index. -/
def resolveVertex (hp1 hp2 : List Pt) (pt : Pt) : Option Pt :=
  (findFirstIdx pt hp2).map (fun i => hp1.getD i (0, 0))

/-- Resolve a triangle's three vertices against the destination hull
points, keeping for each resolvable vertex the pair
(source hull point, destination vertex); unresolvable vertices are
dropped (`if len(idx) == 0: continue`). -/
def resolveTriangle (hp1 hp2 : List Pt) (t : Triple Pt) : List (Pt × Pt) :=
  [t.1, t.2.1, t.2.2].filterMap (fun pt =>
    (resolveVertex hp1 hp2 pt).map (fun s => (s, pt)))

/-- First three elements of a point list as a triangle. -/
def tripleOfList (l : List Pt) : Triple Pt :=
  (l.getD 0 (0, 0), l.getD 1 (0, 0), l.getD 2 (0, 0))

/-- One iteration of the triangle loop of `swap_faces`: warp the triangle
into the accumulated output buffer when all three vertices resolved,
otherwise leave the buffer unchanged. -/
def stepTriangle (img1 : Image) (hp1 hp2 : List Pt) (acc : Image)
    (t : Triple Pt) : Image :=
  let res := resolveTriangle hp1 hp2 t
  if res.length = 3 then
    warpTriangle img1 acc (tripleOfList (res.map Prod.fst))
      (tripleOfList (res.map Prod.snd))
  else acc

/-- The caller-visible buffers of one `swap_faces` call: the two input
images and the working output buffer.  The imperative code mutates only
`out` (the `np.copy(img2)` working buffer); the state threading makes
that write discipline provable. -/
structure SwapState where
  buf1 : Image
  buf2 : Image
  out : Image
deriving DecidableEq

/-- Model of `swap_faces(img1, img2)` with explicit buffer state: copy the
destination, detect landmarks in both images (raising when either is
absent), build the destination-hull point lists, triangulate (oracle for
`cv2.Subdiv2D`), and fold the triangle loop over the output copy.
`convexHullIdx` is the oracle for `cv2.convexHull(..., returnPoints=False)`
applied (once) to the destination landmarks. -/
def swapFacesSt {Face : Type} (detector : Image → List Face)
    (predictor : Image → Face → Landmarks)
    (convexHullIdx : Landmarks → List Nat)
    (triangulate : List Pt → List (Triple Pt))
    (s : SwapState) : SwapState × Except String Image :=
  let out0 := s.buf2
  match landmarksOf detector predictor s.buf1,
        landmarksOf detector predictor s.buf2 with
  | some points1, some points2 =>
    let hull2 := convexHullIdx points2
    let hp1 := hullPoints points1 hull2
    let hp2 := hullPoints points2 hull2
    let final := (triangulate hp2).foldl (stepTriangle s.buf1 hp1 hp2) out0
    ({ s with out := final }, .ok final)
  | _, _ => ({ s with out := out0 },
      .error ("Could not detect faces in one or both images"))

/-- Model of `swap_faces(img1, img2)`: the returned image or the raised error. -/
def swapFaces {Face : Type} (detector : Image → List Face)
    (predictor : Image → Face → Landmarks)
    (convexHullIdx : Landmarks → List Nat)
    (triangulate : List Pt → List (Triple Pt))
    (img1 img2 : Image) : Except String Image :=
  (swapFacesSt detector predictor convexHullIdx triangulate
    ⟨img1, img2, img2⟩).2

/-- The on-disk files visible to `load_and_prepare_image`. -/
structure FS where
  files : List String
deriving DecidableEq

/-- Model of `load_and_prepare_image(uploaded_file)`: decode the uploaded bytes
(`cv2.imdecode` oracle); on failure, write the bytes to a fallback
temporary file `tmp1`, read it back (`cv2.imread` oracle) and unlink
`tmp1`; when a decode succeeded, convert BGR to RGB (oracle `cvt`) and
write the prepared image to a reference temporary file `tmp2` whose path
is returned with the image.  The internal `ValueError` of the
double-decode failure is caught by the function's own handler, which
reports the error and returns `(None, "")`.  The final state of the file
system is returned alongside `(image, temp_file_path)`. -/
def loadAndPrepareImage (upload : Option (List Nat))
    (imdecode : List Nat → Option Image) (imreadTemp : Option Image)
    (cvt : Image → Image) (tmp1 tmp2 : String) (fs : FS) :
    FS × Option Image × String :=
  match upload with
  | none => (fs, none, "")
  | some bytes =>
    match imdecode bytes with
    | some image => (⟨tmp2 :: fs.files⟩, some (cvt image), tmp2)
    | none =>
      let fs1 : FS := ⟨tmp1 :: fs.files⟩
      let fs2 : FS := ⟨fs1.files.erase tmp1⟩
      match imreadTemp with
      | none => (fs2, none, "")
      | some image => (⟨tmp2 :: fs2.files⟩, some (cvt image), tmp2)

/-- The identity affine map. -/
def idAff : Aff := ⟨1, 0, 0, 0, 1, 0⟩

/-- A point lies inside an image's pixel grid. -/
def inBoundsPt (img : Image) (p : Pt) : Prop :=
  0 ≤ p.1 ∧ p.1 < (img.width : Int) ∧ 0 ≤ p.2 ∧ p.2 < (img.height : Int)

instance (img : Image) (p : Pt) : Decidable (inBoundsPt img p) :=
  inferInstanceAs (Decidable
    (0 ≤ p.1 ∧ p.1 < (img.width : Int) ∧ 0 ≤ p.2 ∧ p.2 < (img.height : Int)))

/-- A triangle with non-collinear vertices (nonzero edge cross product). -/
def noncollinearT (t : Triple Pt) : Prop :=
  cross (psub t.2.1 t.1) (psub t.2.2 t.1) ≠ 0

instance (t : Triple Pt) : Decidable (noncollinearT t) :=
  inferInstanceAs (Decidable (cross (psub t.2.1 t.1) (psub t.2.2 t.1) ≠ 0))

/-- The triangle-loop fold of `swap_faces`: hull point lists from the
destination hull indices, triangulation of the destination hull points,
and the per-triangle warp folded over the output buffer. -/
def swapFold (img1 : Image) (lm1 lm2 : Landmarks)
    (convexHullIdx : Landmarks → List Nat)
    (triangulate : List Pt → List (Triple Pt)) (init : Image) : Image :=
  (triangulate (hullPoints lm2 (convexHullIdx lm2))).foldl
    (stepTriangle img1 (hullPoints lm1 (convexHullIdx lm2))
      (hullPoints lm2 (convexHullIdx lm2))) init

/-- A 3x3 test image with distinct red-channel values. -/
def testImageA : Image :=
  ⟨[[(10, 0, 0), (20, 0, 0), (30, 0, 0)],
    [(40, 0, 0), (50, 0, 0), (60, 0, 0)],
    [(70, 0, 0), (80, 0, 0), (90, 0, 0)]]⟩

/-- A fixed landmark set: a right triangle inside the 3x3 test image. -/
def testLm : Landmarks := [(0, 0), (2, 0), (0, 2)]

/-- A test detector oracle that always reports one face. -/
def testDetector : Image → List Nat := fun _ => [0]

/-- A test predictor oracle returning the fixed landmark set. -/
def testPredictor : Image → Nat → Landmarks := fun _ _ => testLm

/-- A test hull oracle selecting all three landmark indices. -/
def testHull : Landmarks → List Nat := fun _ => [0, 1, 2]

/-- A test triangulation oracle emitting the single hull triangle. -/
def testTri : List Pt → List (Triple Pt) := fun _ => [((0, 0), (2, 0), (0, 2))]

/-- A test triangulation oracle that also emits a boundary-artifact
triangle whose vertices match no hull point. -/
def testTriBad : List Pt → List (Triple Pt) :=
  fun _ => [((0, 0), (2, 0), (0, 2)), ((9, 9), (8, 8), (7, 7))]

theorem mapWithIdx_length {α β : Type} (f : Nat → α → β) :
    ∀ (i : Nat) (l : List α), (mapWithIdx f i l).length = l.length := by
  intro i l
  induction l generalizing i with
  | nil => rfl
  | cons a as ih => simp [mapWithIdx, ih]

theorem mapWithIdx_get? {α β : Type} (f : Nat → α → β) :
    ∀ (i j : Nat) (l : List α),
      (mapWithIdx f i l).get? j = (l.get? j).map (f (i + j)) := by
  intro i j l
  induction l generalizing i j with
  | nil => simp [mapWithIdx]
  | cons a as ih =>
    cases j with
    | zero => simp [mapWithIdx]
    | succ j =>
      have h := ih (i + 1) j
      simp only [mapWithIdx, List.get?]
      rw [h]
      have : i + 1 + j = i + (j + 1) := by omega
      rw [this]

theorem mapWithIdx_eq_self {α : Type} (f : Nat → α → α) :
    ∀ (i : Nat) (l : List α),
      (∀ j a, l.get? j = some a → f (i + j) a = a) → mapWithIdx f i l = l := by
  intro i l
  induction l generalizing i with
  | nil => intro _; rfl
  | cons a as ih =>
    intro h
    have h0 : f i a = a := by
      have := h 0 a (by rfl)
      simpa using this
    have hr : mapWithIdx f (i + 1) as = as := by
      apply ih
      intro j b hb
      have := h (j + 1) b (by simpa using hb)
      have e : i + (j + 1) = i + 1 + j := by omega
      rw [e] at this
      exact this
    simp [mapWithIdx, h0, hr]

theorem getD_eq_get? {α : Type} (l : List α) (n : Nat) (d : α) :
    l.getD n d = (l.get? n).getD d := by
  induction l generalizing n with
  | nil => cases n <;> rfl
  | cons a as ih => cases n <;> simp [ih]

theorem mapWithIdx_getElem? {α β : Type} (f : Nat → α → β) :
    ∀ (i j : Nat) (l : List α),
      (mapWithIdx f i l)[j]? = (l[j]?).map (f (i + j)) := by
  intro i j l
  have h := mapWithIdx_get? f i j l
  simpa [List.get?_eq_getElem?] using h

theorem psub_psub (u v o : Pt) : psub (psub u o) (psub v o) = psub u v := by
  cases u; cases v; cases o
  simp [psub]

theorem inConvTriB_psub (a b c p o : Pt) :
    inConvTriB (psub a o) (psub b o) (psub c o) (psub p o) = inConvTriB a b c p := by
  simp only [inConvTriB, onSegB, psub_psub]

theorem blendQ_zero (p w : Pixel) : blendQ p w 0 = toQPix p := by
  cases p with
  | mk p1 p23 =>
    cases w with
    | mk w1 w23 =>
      simp only [blendQ, qAdd, qSmul, toQPix]
      refine Prod.ext ?_ (Prod.ext ?_ ?_) <;> simp

theorem blendQ_one (p w : Pixel) : blendQ p w 1 = toQPix w := by
  cases p with
  | mk p1 p23 =>
    cases w with
    | mk w1 w23 =>
      simp only [blendQ, qAdd, qSmul, toQPix]
      refine Prod.ext ?_ (Prod.ext ?_ ?_) <;> simp

theorem floorPix_toQPix (p : Pixel) : floorPix (toQPix p) = p := by
  cases p with
  | mk p1 p23 => simp [floorPix, toQPix]

theorem roundPix_toQPix (p : Pixel) : roundPix (toQPix p) = p := by
  cases p with
  | mk p1 p23 => simp [roundPix, toQPix]

theorem findFirstIdx_get? (pt : Pt) :
    ∀ (l : List Pt) (i : Nat), findFirstIdx pt l = some i → l.get? i = some pt := by
  intro l
  induction l with
  | nil => intro i h; simp [findFirstIdx] at h
  | cons q rest ih =>
    intro i h
    by_cases hq : q = pt
    · simp [findFirstIdx, hq] at h
      subst h
      simp [hq]
    · simp [findFirstIdx, hq] at h
      obtain ⟨j, hj, rfl⟩ := h
      simpa using ih j hj

theorem findFirstIdx_mem (pt : Pt) (l : List Pt) (i : Nat)
    (h : findFirstIdx pt l = some i) : pt ∈ l :=
  List.get?_mem (findFirstIdx_get? pt l i h)

theorem findFirstIdx_getD (pt : Pt) (l : List Pt) (i : Nat)
    (h : findFirstIdx pt l = some i) : l.getD i (0, 0) = pt := by
  rw [getD_eq_get?, findFirstIdx_get? pt l i h]
  rfl

theorem warpTriangle_getPx_valid (img1 img2 : Image) (t1 t2 : Triple Pt)
    (y x : Nat) (row : List Pixel) (a : Pixel)
    (hy : img2.data[y]? = some row) (hx : row[x]? = some a) :
    (warpTriangle img1 img2 t1 t2).getPx y x =
      (if inRectAbs (boundingRect t2) (x : Int) (y : Int) then
        floorPix (blendQ a
          (warpedValue img1 t1 t2 ((x : Int) - (boundingRect t2).x)
            ((y : Int) - (boundingRect t2).y))
          (maskValue t2 ((x : Int) - (boundingRect t2).x)
            ((y : Int) - (boundingRect t2).y)))
      else a) := by
  unfold warpTriangle Image.getPx
  simp [mapWithIdx_getElem?, hy, hx]

theorem warpTriangle_getPx_default (img1 img2 : Image) (t1 t2 : Triple Pt)
    (y x : Nat)
    (h : img2.data[y]? = none ∨
      ∃ row, img2.data[y]? = some row ∧ row[x]? = none) :
    (warpTriangle img1 img2 t1 t2).getPx y x = img2.getPx y x := by
  unfold warpTriangle Image.getPx
  rcases h with h | ⟨row, hy, hx⟩
  · simp [mapWithIdx_getElem?, h]
  · simp [mapWithIdx_getElem?, hy, hx]

theorem warpTriangle_getPx_outside (img1 img2 : Image) (t1 t2 : Triple Pt)
    (y x : Nat)
    (hout : inConvTriB t2.1 t2.2.1 t2.2.2 ((x : Int), (y : Int)) = false) :
    (warpTriangle img1 img2 t1 t2).getPx y x = img2.getPx y x := by
  cases hy : img2.data[y]? with
  | none => exact warpTriangle_getPx_default img1 img2 t1 t2 y x (Or.inl hy)
  | some row =>
    cases hx : row[x]? with
    | none =>
      exact warpTriangle_getPx_default img1 img2 t1 t2 y x (Or.inr ⟨row, hy, hx⟩)
    | some a =>
      rw [warpTriangle_getPx_valid img1 img2 t1 t2 y x row a hy hx]
      have ha : img2.getPx y x = a := by
        unfold Image.getPx
        simp [getD_eq_get?, List.get?_eq_getElem?, hy, hx]
      rw [ha]
      by_cases hin : inRectAbs (boundingRect t2) (x : Int) (y : Int)
      · rw [if_pos hin]
        have hm : maskValue t2 ((x : Int) - (boundingRect t2).x)
            ((y : Int) - (boundingRect t2).y) = 0 := by
          unfold maskValue maskVal
          have hpt : (((x : Int) - (boundingRect t2).x,
              (y : Int) - (boundingRect t2).y) : Pt) =
              psub ((x : Int), (y : Int)) ((boundingRect t2).x, (boundingRect t2).y) := by
            simp [psub]
          rw [hpt]
          have := inConvTriB_psub t2.1 t2.2.1 t2.2.2 ((x : Int), (y : Int))
            ((boundingRect t2).x, (boundingRect t2).y)
          unfold localTriple
          rw [this, hout]
          simp
        rw [hm, blendQ_zero, floorPix_toQPix]
      · rw [if_neg hin]

theorem warpTriangle_height (img1 img2 : Image) (t1 t2 : Triple Pt) :
    (warpTriangle img1 img2 t1 t2).height = img2.height := by
  unfold warpTriangle Image.height
  simp [mapWithIdx_length]

theorem warpTriangle_width (img1 img2 : Image) (t1 t2 : Triple Pt) :
    (warpTriangle img1 img2 t1 t2).width = img2.width := by
  unfold warpTriangle Image.width
  cases hd : img2.data with
  | nil => simp [mapWithIdx]
  | cons r rs => simp [mapWithIdx, mapWithIdx_length]

theorem stepTriangle_height (img1 : Image) (hp1 hp2 : List Pt) (acc : Image)
    (t : Triple Pt) : (stepTriangle img1 hp1 hp2 acc t).height = acc.height := by
  unfold stepTriangle
  by_cases h : (resolveTriangle hp1 hp2 t).length = 3
  · simp [h, warpTriangle_height]
  · simp [h]

theorem stepTriangle_width (img1 : Image) (hp1 hp2 : List Pt) (acc : Image)
    (t : Triple Pt) : (stepTriangle img1 hp1 hp2 acc t).width = acc.width := by
  unfold stepTriangle
  by_cases h : (resolveTriangle hp1 hp2 t).length = 3
  · simp [h, warpTriangle_width]
  · simp [h]

theorem foldl_stepTriangle_dims (img1 : Image) (hp1 hp2 : List Pt) :
    ∀ (ts : List (Triple Pt)) (init : Image),
      (ts.foldl (stepTriangle img1 hp1 hp2) init).height = init.height ∧
      (ts.foldl (stepTriangle img1 hp1 hp2) init).width = init.width := by
  intro ts
  induction ts with
  | nil => intro init; exact ⟨rfl, rfl⟩
  | cons t ts ih =>
    intro init
    have h := ih (stepTriangle img1 hp1 hp2 init t)
    simp only [List.foldl_cons]
    exact ⟨h.1.trans (stepTriangle_height img1 hp1 hp2 init t),
           h.2.trans (stepTriangle_width img1 hp1 hp2 init t)⟩

theorem foldl_filter_eq {α β : Type} (step : β → α → β) (p : α → Bool)
    (hstep : ∀ b a, p a = false → step b a = b) :
    ∀ (l : List α) (init : β),
      l.foldl step init = (l.filter p).foldl step init := by
  intro l
  induction l with
  | nil => intro init; rfl
  | cons a as ih =>
    intro init
    by_cases hp : p a = true
    · simp [List.filter_cons, hp, ih]
    · have hf : p a = false := by simpa using hp
      simp [List.filter_cons, hf, hstep init a hf, ih]

theorem reflect101_of_lt (n : Nat) (i : Int) (h0 : 0 ≤ i) (hn : i < (n : Int)) :
    reflect101 n i = i.toNat := by
  unfold reflect101
  by_cases h1 : n ≤ 1
  · rw [if_pos h1]
    omega
  · rw [if_neg h1]
    have hp : i % (2 * (n : Int) - 2) = i :=
      Int.emod_eq_of_lt h0 (by omega)
    simp only [hp]
    rw [if_pos hn]

theorem applyAff_idAff (q : ℚ × ℚ) : applyAff idAff q = q := by
  unfold applyAff idAff
  simp

theorem invertAffine_idAff : invertAffine idAff = idAff := by
  unfold invertAffine idAff
  norm_num

theorem getAffineTransform_self (p1 p2 p3 : ℚ × ℚ)
    (h : (p2.1 - p1.1) * (p3.2 - p1.2) - (p3.1 - p1.1) * (p2.2 - p1.2) ≠ 0) :
    getAffineTransform p1 p2 p3 p1 p2 p3 = idAff := by
  simp only [getAffineTransform, idAff]
  rw [if_neg h]
  simp only [Aff.mk.injEq]
  refine ⟨?_, ?_, ?_, ?_, ?_, ?_⟩ <;> field_simp <;> ring

theorem bilinearQ_int (img : Image) (lx ly : Int) :
    bilinearQ img ((lx : ℚ), (ly : ℚ)) =
      toQPix (img.getPx (reflect101 img.height ly) (reflect101 img.width lx)) := by
  unfold bilinearQ
  simp only [Int.floor_intCast, sub_self]
  cases h : img.getPx (reflect101 img.height ly) (reflect101 img.width lx) with
  | mk c1 c23 =>
    cases c23 with
    | mk c2 c3 => simp [qAdd, qSmul, toQPix]

theorem headD_eq_getElem? {α : Type} (l : List α) (d : α) :
    l.headD d = l[0]?.getD d := by
  cases l <;> simp

theorem cropImage_row (img : Image) (r : Rect) (j : Nat) (hj : j < r.h.toNat) :
    (cropImage img r).data[j]? =
      (img.data[r.y.toNat + j]?).map
        (fun row => (row.drop r.x.toNat).take r.w.toNat) := by
  unfold cropImage
  simp [List.getElem?_take, hj, List.getElem?_drop]

theorem cropImage_getPx (img : Image) (r : Rect) (j i : Nat)
    (hj : j < r.h.toNat) (hi : i < r.w.toNat) :
    (cropImage img r).getPx j i = img.getPx (r.y.toNat + j) (r.x.toNat + i) := by
  have hcrop := cropImage_row img r j hj
  unfold Image.getPx
  simp only [getD_eq_get?, List.get?_eq_getElem?]
  rw [hcrop]
  cases hrow : img.data[r.y.toNat + j]? with
  | none => simp
  | some row =>
    simp only [Option.map_some, Option.getD_some]
    simp [List.getElem?_take, hi, List.getElem?_drop]

theorem cropImage_height (img : Image) (r : Rect)
    (hh : r.y.toNat + r.h.toNat ≤ img.height) :
    (cropImage img r).height = r.h.toNat := by
  unfold Image.height at hh
  unfold cropImage Image.height
  simp only [List.length_map, List.length_take, List.length_drop]
  omega

theorem cropImage_width (img : Image) (r : Rect) (hwf : img.wf)
    (hyh : r.y.toNat < img.height) (hh : 0 < r.h.toNat)
    (hx : r.x.toNat + r.w.toNat ≤ img.width) :
    (cropImage img r).width = r.w.toNat := by
  unfold Image.width
  rw [headD_eq_getElem?, cropImage_row img r 0 hh]
  have hlt : r.y.toNat + 0 < img.data.length := by
    unfold Image.height at hyh
    omega
  obtain ⟨row, hrow⟩ : ∃ row, img.data[r.y.toNat + 0]? = some row := by
    rw [List.getElem?_eq_getElem hlt]
    exact ⟨_, rfl⟩
  have hmem : row ∈ img.data := List.getElem?_mem hrow
  have hlen : row.length = img.width := hwf row hmem
  rw [hrow]
  simp only [Option.map_some', Option.getD_some, List.length_take,
    List.length_drop]
  omega

theorem getPx_of_get? (img : Image) (j i : Nat) (row : List Pixel) (a : Pixel)
    (hrow : img.data.get? j = some row) (ha : row.get? i = some a) :
    img.getPx j i = a := by
  unfold Image.getPx
  rw [getD_eq_get? img.data j [], hrow, Option.getD_some,
    getD_eq_get? row i (0, 0, 0), ha, Option.getD_some]

theorem boundingRect_bounds (img : Image) (t : Triple Pt)
    (h1 : inBoundsPt img t.1) (h2 : inBoundsPt img t.2.1)
    (h3 : inBoundsPt img t.2.2) :
    0 ≤ (boundingRect t).x ∧ 0 ≤ (boundingRect t).y ∧
    (boundingRect t).x + (boundingRect t).w ≤ (img.width : Int) ∧
    (boundingRect t).y + (boundingRect t).h ≤ (img.height : Int) ∧
    0 < (boundingRect t).w ∧ 0 < (boundingRect t).h := by
  obtain ⟨a1, a2, a3, a4⟩ := h1
  obtain ⟨b1, b2, b3, b4⟩ := h2
  obtain ⟨c1, c2, c3, c4⟩ := h3
  simp only [boundingRect]
  refine ⟨?_, ?_, ?_, ?_, ?_, ?_⟩ <;> omega

theorem maskValue_eq_zero (t : Triple Pt) (lx ly : Int)
    (h : inConvTriB (localTriple t (boundingRect t)).1
      (localTriple t (boundingRect t)).2.1
      (localTriple t (boundingRect t)).2.2 (lx, ly) = false) :
    maskValue t lx ly = 0 := by
  unfold maskValue maskVal
  simp [h]

theorem maskValue_eq_one (t : Triple Pt) (lx ly : Int)
    (h : inConvTriB (localTriple t (boundingRect t)).1
      (localTriple t (boundingRect t)).2.1
      (localTriple t (boundingRect t)).2.2 (lx, ly) = true) :
    maskValue t lx ly = 1 := by
  unfold maskValue maskVal
  simp [h]

theorem affineOfTriples_self (t : Triple Pt) (r : Rect)
    (hnc : cross (psub t.2.1 t.1) (psub t.2.2 t.1) ≠ 0) :
    affineOfTriples (localTriple t r) (localTriple t r) = idAff := by
  apply getAffineTransform_self
  have key : ((ptQ (localTriple t r).2.1).1 - (ptQ (localTriple t r).1).1) *
        ((ptQ (localTriple t r).2.2).2 - (ptQ (localTriple t r).1).2) -
      ((ptQ (localTriple t r).2.2).1 - (ptQ (localTriple t r).1).1) *
        ((ptQ (localTriple t r).2.1).2 - (ptQ (localTriple t r).1).2) =
      ((cross (psub t.2.1 t.1) (psub t.2.2 t.1) : Int) : ℚ) := by
    simp only [ptQ, localTriple, psub, cross]
    push_cast
    ring
  rw [key]
  exact_mod_cast hnc

theorem warpedValue_self (A : Image) (hwf : A.wf) (t : Triple Pt)
    (h1 : inBoundsPt A t.1) (h2 : inBoundsPt A t.2.1) (h3 : inBoundsPt A t.2.2)
    (hnc : cross (psub t.2.1 t.1) (psub t.2.2 t.1) ≠ 0)
    (lx ly : Int) (hlx0 : 0 ≤ lx) (hlxw : lx < (boundingRect t).w)
    (hly0 : 0 ≤ ly) (hlyh : ly < (boundingRect t).h) :
    warpedValue A t t lx ly =
      A.getPx ((boundingRect t).y.toNat + ly.toNat)
        ((boundingRect t).x.toNat + lx.toNat) := by
  obtain ⟨hx0, hy0, hxw, hyh, hw, hh⟩ := boundingRect_bounds A t h1 h2 h3
  simp only [warpedValue, warpSample]
  rw [affineOfTriples_self t (boundingRect t) hnc, invertAffine_idAff,
    applyAff_idAff, bilinearQ_int]
  have hch : (cropImage A (boundingRect t)).height = (boundingRect t).h.toNat :=
    cropImage_height A (boundingRect t) (by omega)
  have hcw : (cropImage A (boundingRect t)).width = (boundingRect t).w.toNat :=
    cropImage_width A (boundingRect t) hwf (by omega) (by omega) (by omega)
  rw [hch, hcw, reflect101_of_lt _ ly hly0 (by omega),
    reflect101_of_lt _ lx hlx0 (by omega),
    cropImage_getPx A (boundingRect t) ly.toNat lx.toNat (by omega) (by omega),
    roundPix_toQPix]

theorem image_mk_eq (img : Image) (g : Nat → Nat → Pixel → Pixel)
    (h : ∀ j i row a, img.data.get? j = some row → row.get? i = some a →
      g j i a = a) :
    Image.mk (mapWithIdx (fun y row => mapWithIdx (fun x p => g y x p) 0 row)
      0 img.data) = img := by
  have hdata : mapWithIdx (fun y row => mapWithIdx (fun x p => g y x p) 0 row)
      0 img.data = img.data := by
    apply mapWithIdx_eq_self
    intro j row hrow
    simp only [Nat.zero_add]
    apply mapWithIdx_eq_self
    intro i a ha
    simp only [Nat.zero_add]
    exact h j i row a hrow ha
  rw [hdata]

theorem warpTriangle_self (A : Image) (hwf : A.wf) (t : Triple Pt)
    (h1 : inBoundsPt A t.1) (h2 : inBoundsPt A t.2.1) (h3 : inBoundsPt A t.2.2)
    (hnc : cross (psub t.2.1 t.1) (psub t.2.2 t.1) ≠ 0) :
    warpTriangle A A t t = A := by
  obtain ⟨hx0, hy0, hxw, hyh, hw, hh⟩ := boundingRect_bounds A t h1 h2 h3
  simp only [warpTriangle]
  apply image_mk_eq
  intro j i row a hrow ha
  cases hin : inRectAbs (boundingRect t) (i : Int) (j : Int) with
  | false => simp [hin]
  | true =>
    simp only [hin, if_true]
    have hprops : (boundingRect t).x ≤ (i : Int) ∧
        (i : Int) < (boundingRect t).x + (boundingRect t).w ∧
        (boundingRect t).y ≤ (j : Int) ∧
        (j : Int) < (boundingRect t).y + (boundingRect t).h := by
      have := of_decide_eq_true hin
      exact this
    obtain ⟨hi1, hi2, hj1, hj2⟩ := hprops
    cases hm : inConvTriB (localTriple t (boundingRect t)).1
        (localTriple t (boundingRect t)).2.1
        (localTriple t (boundingRect t)).2.2
        ((i : Int) - (boundingRect t).x, (j : Int) - (boundingRect t).y) with
    | false =>
      rw [maskValue_eq_zero t _ _ hm, blendQ_zero, floorPix_toQPix]
    | true =>
      rw [maskValue_eq_one t _ _ hm, blendQ_one, floorPix_toQPix]
      rw [warpedValue_self A hwf t h1 h2 h3 hnc
        ((i : Int) - (boundingRect t).x) ((j : Int) - (boundingRect t).y)
        (by omega) (by omega) (by omega) (by omega)]
      have hyy : (boundingRect t).y.toNat + ((j : Int) - (boundingRect t).y).toNat = j := by
        omega
      have hxx : (boundingRect t).x.toNat + ((i : Int) - (boundingRect t).x).toNat = i := by
        omega
      rw [hyy, hxx]
      exact getPx_of_get? A j i row a hrow ha

theorem getD_mem_of_lt {α : Type} (l : List α) (n : Nat) (d : α)
    (h : n < l.length) : l.getD n d ∈ l := by
  rw [getD_eq_get?, List.get?_eq_getElem?, List.getElem?_eq_getElem h,
    Option.getD_some]
  exact List.getElem_mem h

theorem resolveTriangle_pair (hp1 hp2 : List Pt) (t : Triple Pt)
    (pr : Pt × Pt) (hpr : pr ∈ resolveTriangle hp1 hp2 t) :
    ∃ i, findFirstIdx pr.2 hp2 = some i ∧ pr.1 = hp1.getD i (0, 0) := by
  unfold resolveTriangle at hpr
  rw [List.mem_filterMap] at hpr
  obtain ⟨pt, _, hmap⟩ := hpr
  cases hfi : findFirstIdx pt hp2 with
  | none =>
    rw [show resolveVertex hp1 hp2 pt = none by
      unfold resolveVertex; rw [hfi]; rfl] at hmap
    exact Option.noConfusion hmap
  | some i =>
    rw [show (resolveVertex hp1 hp2 pt) = some (hp1.getD i (0, 0)) by
      unfold resolveVertex; rw [hfi]; rfl] at hmap
    simp only [Option.map_some', Option.some_inj] at hmap
    subst hmap
    exact ⟨i, hfi, rfl⟩

theorem resolveTriangle_snd_mem (hp1 hp2 : List Pt) (t : Triple Pt)
    (pr : Pt × Pt) (hpr : pr ∈ resolveTriangle hp1 hp2 t) : pr.2 ∈ hp2 := by
  obtain ⟨i, hfi, _⟩ := resolveTriangle_pair hp1 hp2 t pr hpr
  exact findFirstIdx_mem pr.2 hp2 i hfi

theorem resolveTriangle_self_pair (hp : List Pt) (t : Triple Pt)
    (pr : Pt × Pt) (hpr : pr ∈ resolveTriangle hp hp t) : pr.1 = pr.2 := by
  obtain ⟨i, hfi, hfst⟩ := resolveTriangle_pair hp hp t pr hpr
  rw [hfst, findFirstIdx_getD pr.2 hp i hfi]

theorem map_eq_map_of_ptwise {α β : Type} (f g : α → β) :
    ∀ (l : List α), (∀ a ∈ l, f a = g a) → l.map f = l.map g := by
  intro l
  induction l with
  | nil => intro _; rfl
  | cons a as ih =>
    intro h
    simp only [List.map_cons]
    rw [h a (List.mem_cons_self a as), ih (fun b hb => h b (List.mem_cons_of_mem a hb))]

theorem resolveTriangle_self_maps (hp : List Pt) (t : Triple Pt) :
    (resolveTriangle hp hp t).map Prod.fst = (resolveTriangle hp hp t).map Prod.snd :=
  map_eq_map_of_ptwise Prod.fst Prod.snd (resolveTriangle hp hp t)
    (fun pr hpr => resolveTriangle_self_pair hp t pr hpr)

theorem tripleOfList_map_snd_mem (res : List (Pt × Pt)) (hp2 : List Pt)
    (hlen : res.length = 3)
    (hmem : ∀ pr ∈ res, pr.2 ∈ hp2) :
    (tripleOfList (res.map Prod.snd)).1 ∈ hp2 ∧
    (tripleOfList (res.map Prod.snd)).2.1 ∈ hp2 ∧
    (tripleOfList (res.map Prod.snd)).2.2 ∈ hp2 := by
  have hlm : (res.map Prod.snd).length = 3 := by simp [hlen]
  have h0 : (res.map Prod.snd).getD 0 (0, 0) ∈ res.map Prod.snd :=
    getD_mem_of_lt _ 0 (0, 0) (by omega)
  have h1 : (res.map Prod.snd).getD 1 (0, 0) ∈ res.map Prod.snd :=
    getD_mem_of_lt _ 1 (0, 0) (by omega)
  have h2 : (res.map Prod.snd).getD 2 (0, 0) ∈ res.map Prod.snd :=
    getD_mem_of_lt _ 2 (0, 0) (by omega)
  refine ⟨?_, ?_, ?_⟩
  · obtain ⟨pr, hpr, he⟩ := List.mem_map.mp h0
    rw [show (tripleOfList (res.map Prod.snd)).1 = (res.map Prod.snd).getD 0 (0, 0) from rfl,
      ← he]
    exact hmem pr hpr
  · obtain ⟨pr, hpr, he⟩ := List.mem_map.mp h1
    rw [show (tripleOfList (res.map Prod.snd)).2.1 = (res.map Prod.snd).getD 1 (0, 0) from rfl,
      ← he]
    exact hmem pr hpr
  · obtain ⟨pr, hpr, he⟩ := List.mem_map.mp h2
    rw [show (tripleOfList (res.map Prod.snd)).2.2 = (res.map Prod.snd).getD 2 (0, 0) from rfl,
      ← he]
    exact hmem pr hpr

theorem stepTriangle_not3 (img1 : Image) (hp1 hp2 : List Pt) (acc : Image)
    (t : Triple Pt) (h : (resolveTriangle hp1 hp2 t).length ≠ 3) :
    stepTriangle img1 hp1 hp2 acc t = acc := by
  unfold stepTriangle
  rw [if_neg h]

theorem swapFacesSt_eq_of_detected {Face : Type} (detector : Image → List Face)
    (predictor : Image → Face → Landmarks)
    (convexHullIdx : Landmarks → List Nat)
    (triangulate : List Pt → List (Triple Pt))
    (s : SwapState) (lm1 lm2 : Landmarks)
    (hd1 : landmarksOf detector predictor s.buf1 = some lm1)
    (hd2 : landmarksOf detector predictor s.buf2 = some lm2) :
    swapFacesSt detector predictor convexHullIdx triangulate s =
      ({ s with out := swapFold s.buf1 lm1 lm2 convexHullIdx triangulate s.buf2 },
       .ok (swapFold s.buf1 lm1 lm2 convexHullIdx triangulate s.buf2)) := by
  simp only [swapFacesSt, swapFold, hd1, hd2]

theorem swapFacesSt_eq_of_noface {Face : Type} (detector : Image → List Face)
    (predictor : Image → Face → Landmarks)
    (convexHullIdx : Landmarks → List Nat)
    (triangulate : List Pt → List (Triple Pt))
    (s : SwapState)
    (hd : landmarksOf detector predictor s.buf1 = none ∨
      landmarksOf detector predictor s.buf2 = none) :
    swapFacesSt detector predictor convexHullIdx triangulate s =
      ({ s with out := s.buf2 },
       .error ("Could not detect faces in one or both images")) := by
  rcases hd with hd | hd
  · cases h2 : landmarksOf detector predictor s.buf2 <;>
      simp only [swapFacesSt, hd, h2]
  · cases h1 : landmarksOf detector predictor s.buf1 <;>
      simp only [swapFacesSt, hd, h1]

theorem stepTriangle_getPx_outside (img1 : Image) (hp1 hp2 : List Pt)
    (acc : Image) (t : Triple Pt) (y x : Nat)
    (hout : ∀ a b c : Pt, a ∈ hp2 → b ∈ hp2 → c ∈ hp2 →
      inConvTriB a b c ((x : Int), (y : Int)) = false) :
    (stepTriangle img1 hp1 hp2 acc t).getPx y x = acc.getPx y x := by
  unfold stepTriangle
  by_cases hlen : (resolveTriangle hp1 hp2 t).length = 3
  · rw [if_pos hlen]
    apply warpTriangle_getPx_outside
    obtain ⟨m1, m2, m3⟩ := tripleOfList_map_snd_mem (resolveTriangle hp1 hp2 t)
      hp2 hlen (fun pr hpr => resolveTriangle_snd_mem hp1 hp2 t pr hpr)
    exact hout _ _ _ m1 m2 m3
  · rw [if_neg hlen]

theorem foldl_stepTriangle_getPx_outside (img1 : Image) (hp1 hp2 : List Pt)
    (y x : Nat)
    (hout : ∀ a b c : Pt, a ∈ hp2 → b ∈ hp2 → c ∈ hp2 →
      inConvTriB a b c ((x : Int), (y : Int)) = false) :
    ∀ (ts : List (Triple Pt)) (init : Image),
      ((ts.foldl (stepTriangle img1 hp1 hp2) init).getPx y x) = init.getPx y x := by
  intro ts
  induction ts with
  | nil => intro init; rfl
  | cons t ts ih =>
    intro init
    simp only [List.foldl_cons]
    rw [ih (stepTriangle img1 hp1 hp2 init t)]
    exact stepTriangle_getPx_outside img1 hp1 hp2 init t y x hout

theorem stepTriangle_self (A : Image) (hwf : A.wf) (hp : List Pt)
    (hbounds : ∀ p ∈ hp, inBoundsPt A p) (t : Triple Pt)
    (hnc : (resolveTriangle hp hp t).length = 3 →
      noncollinearT (tripleOfList ((resolveTriangle hp hp t).map Prod.snd))) :
    stepTriangle A hp hp A t = A := by
  unfold stepTriangle
  by_cases hlen : (resolveTriangle hp hp t).length = 3
  · rw [if_pos hlen]
    rw [show tripleOfList ((resolveTriangle hp hp t).map Prod.fst) =
        tripleOfList ((resolveTriangle hp hp t).map Prod.snd) from
      congrArg tripleOfList (resolveTriangle_self_maps hp t)]
    obtain ⟨m1, m2, m3⟩ := tripleOfList_map_snd_mem (resolveTriangle hp hp t)
      hp hlen (fun pr hpr => resolveTriangle_snd_mem hp hp t pr hpr)
    exact warpTriangle_self A hwf _ (hbounds _ m1) (hbounds _ m2) (hbounds _ m3)
      (hnc hlen)
  · rw [if_neg hlen]

theorem foldl_stepTriangle_self (A : Image) (hwf : A.wf) (hp : List Pt)
    (hbounds : ∀ p ∈ hp, inBoundsPt A p) :
    ∀ (ts : List (Triple Pt)),
      (∀ t ∈ ts, (resolveTriangle hp hp t).length = 3 →
        noncollinearT (tripleOfList ((resolveTriangle hp hp t).map Prod.snd))) →
      ts.foldl (stepTriangle A hp hp) A = A := by
  intro ts
  induction ts with
  | nil => intro _; rfl
  | cons t ts ih =>
    intro h
    simp only [List.foldl_cons]
    rw [stepTriangle_self A hwf hp hbounds t (h t (List.mem_cons_self t ts))]
    exact ih (fun u hu => h u (List.mem_cons_of_mem t hu))

/-- C1: if landmark detection yields no landmarks for either input image,
`swap_faces` raises the `ValueError` (surfaced to the caller) on a path
that precedes the triangle loop, so no triangle compositing runs and both
caller-supplied buffers — in particular the destination buffer — are left
exactly as they were. -/
theorem swapFaces_noFace_failFast {Face : Type} (detector : Image → List Face)
    (predictor : Image → Face → Landmarks)
    (convexHullIdx : Landmarks → List Nat)
    (triangulate : List Pt → List (Triple Pt)) (s : SwapState)
    (hd : landmarksOf detector predictor s.buf1 = none ∨
      landmarksOf detector predictor s.buf2 = none) :
    (swapFacesSt detector predictor convexHullIdx triangulate s).2 =
      .error ("Could not detect faces in one or both images") ∧
    (swapFacesSt detector predictor convexHullIdx triangulate s).1.buf1 = s.buf1 ∧
    (swapFacesSt detector predictor convexHullIdx triangulate s).1.buf2 = s.buf2 := by
  rw [swapFacesSt_eq_of_noface detector predictor convexHullIdx triangulate s hd]
  exact ⟨rfl, rfl, rfl⟩

theorem swapFaces_noFace_failFast_witness :
    (swapFacesSt (fun _ : Image => ([] : List Unit)) (fun _ _ => ([] : Landmarks))
      (fun _ => []) (fun _ => []) ⟨⟨[]⟩, ⟨[]⟩, ⟨[]⟩⟩).2 =
      .error ("Could not detect faces in one or both images") ∧
    (swapFacesSt (fun _ : Image => ([] : List Unit)) (fun _ _ => ([] : Landmarks))
      (fun _ => []) (fun _ => []) ⟨⟨[]⟩, ⟨[]⟩, ⟨[]⟩⟩).1.buf1 = Image.mk [] ∧
    (swapFacesSt (fun _ : Image => ([] : List Unit)) (fun _ _ => ([] : Landmarks))
      (fun _ => []) (fun _ => []) ⟨⟨[]⟩, ⟨[]⟩, ⟨[]⟩⟩).1.buf2 = Image.mk [] :=
  swapFaces_noFace_failFast (fun _ => []) (fun _ _ => []) (fun _ => [])
    (fun _ => []) ⟨⟨[]⟩, ⟨[]⟩, ⟨[]⟩⟩ (Or.inl rfl)

/-- C9: with a valid (non-absent) input image, `detect_landmarks` runs the
predictor on the first face of the detector's result list, regardless of
how many faces were detected, and returns the absent value (instead of
raising) when the detector finds no face. -/
theorem detectLandmarks_first_face {Face : Type} (detector : Image → List Face)
    (predictor : Image → Face → Landmarks) (im : Image) :
    (∀ f rest, detector im = f :: rest →
      detectLandmarks (some im) detector predictor =
        .ok (some (f, predictor im f))) ∧
    (detector im = [] →
      detectLandmarks (some im) detector predictor = .ok none) := by
  constructor
  · intro f rest hdet
    simp only [detectLandmarks]
    rw [hdet]
  · intro hdet
    simp only [detectLandmarks]
    rw [hdet]

theorem detectLandmarks_first_face_witness :
    detectLandmarks (some (⟨[]⟩ : Image)) (fun _ => [5, 7])
        (fun _ _ => ([] : Landmarks)) = .ok (some (5, [])) ∧
    detectLandmarks (some (⟨[]⟩ : Image)) (fun _ => ([] : List Nat))
        (fun _ _ => ([] : Landmarks)) = .ok none :=
  ⟨(detectLandmarks_first_face (fun _ => [5, 7]) (fun _ _ => []) ⟨[]⟩).1 5 [7] rfl,
   (detectLandmarks_first_face (fun _ => []) (fun _ _ => []) ⟨[]⟩).2 rfl⟩

/-- C10: `swap_faces` never mutates either caller-supplied image buffer:
all compositing is folded over the `np.copy` of the destination held in
the `out` field, the source buffer is only ever read, and on every
execution — detection success or failure — both input buffers of the
state are unchanged. -/
theorem swapFacesSt_never_mutates_inputs {Face : Type}
    (detector : Image → List Face) (predictor : Image → Face → Landmarks)
    (convexHullIdx : Landmarks → List Nat)
    (triangulate : List Pt → List (Triple Pt)) (s : SwapState) :
    (swapFacesSt detector predictor convexHullIdx triangulate s).1.buf1 = s.buf1 ∧
    (swapFacesSt detector predictor convexHullIdx triangulate s).1.buf2 = s.buf2 := by
  cases h1 : landmarksOf detector predictor s.buf1 with
  | none =>
    rw [swapFacesSt_eq_of_noface detector predictor convexHullIdx triangulate s
      (Or.inl h1)]
    exact ⟨rfl, rfl⟩
  | some lm1 =>
    cases h2 : landmarksOf detector predictor s.buf2 with
    | none =>
      rw [swapFacesSt_eq_of_noface detector predictor convexHullIdx triangulate s
        (Or.inr h2)]
      exact ⟨rfl, rfl⟩
    | some lm2 =>
      rw [swapFacesSt_eq_of_detected detector predictor convexHullIdx triangulate
        s lm1 lm2 h1 h2]
      exact ⟨rfl, rfl⟩

/-- C2: when both faces are detected and `swap_faces` returns an output,
every pixel whose coordinates lie outside every triangle spanned by the
computed destination hull points — i.e. strictly outside the convex hull
computed over the destination landmarks (the union of such triangles is
that hull, by Caratheodory in the plane) — is byte-identical to the
corresponding pixel of the input destination image. -/
theorem swapFaces_outside_hull_unchanged {Face : Type}
    (detector : Image → List Face) (predictor : Image → Face → Landmarks)
    (convexHullIdx : Landmarks → List Nat)
    (triangulate : List Pt → List (Triple Pt)) (img1 img2 : Image)
    (lm1 lm2 : Landmarks)
    (hd1 : landmarksOf detector predictor img1 = some lm1)
    (hd2 : landmarksOf detector predictor img2 = some lm2)
    (out : Image)
    (hok : swapFaces detector predictor convexHullIdx triangulate img1 img2 =
      .ok out)
    (y x : Nat)
    (hout : ∀ a ∈ hullPoints lm2 (convexHullIdx lm2),
      ∀ b ∈ hullPoints lm2 (convexHullIdx lm2),
      ∀ c ∈ hullPoints lm2 (convexHullIdx lm2),
      inConvTriB a b c ((x : Int), (y : Int)) = false) :
    out.getPx y x = img2.getPx y x := by
  unfold swapFaces at hok
  have hval := swapFacesSt_eq_of_detected detector predictor convexHullIdx
    triangulate ⟨img1, img2, img2⟩ lm1 lm2 hd1 hd2
  rw [hval] at hok
  have hfe : swapFold img1 lm1 lm2 convexHullIdx triangulate img2 = out := by
    injection hok
  rw [← hfe]
  simp only [swapFold]
  exact foldl_stepTriangle_getPx_outside img1
    (hullPoints lm1 (convexHullIdx lm2)) (hullPoints lm2 (convexHullIdx lm2))
    y x (fun a b c ha hb hc => hout a ha b hb c hc) _ img2

theorem swapFaces_outside_hull_unchanged_witness :
    swapFaces testDetector testPredictor testHull testTri testImageA testImageA =
      .ok (swapFold testImageA testLm testLm testHull testTri testImageA) ∧
    (swapFold testImageA testLm testLm testHull testTri testImageA).getPx 2 2 =
      testImageA.getPx 2 2 :=
  ⟨rfl, swapFaces_outside_hull_unchanged testDetector testPredictor testHull
    testTri testImageA testImageA testLm testLm rfl rfl
    (swapFold testImageA testLm testLm testHull testTri testImageA) rfl 2 2
    (by decide)⟩

/-- C3: round-trip identity — swapping an image onto itself (source equals
destination) returns an output equal to the input image (same dimensions,
pixel-exact; the per-triangle affine warp is the identity), assuming the
detected hull points lie in the image, rows are rectangular, and resolved
triangles are non-degenerate (as a Delaunay triangulation produces). -/
theorem swapFaces_roundtrip_identity {Face : Type}
    (detector : Image → List Face) (predictor : Image → Face → Landmarks)
    (convexHullIdx : Landmarks → List Nat)
    (triangulate : List Pt → List (Triple Pt)) (A : Image) (lm : Landmarks)
    (hwf : A.wf)
    (hd : landmarksOf detector predictor A = some lm)
    (hbounds : ∀ p ∈ hullPoints lm (convexHullIdx lm), inBoundsPt A p)
    (hnc : ∀ t ∈ triangulate (hullPoints lm (convexHullIdx lm)),
      (resolveTriangle (hullPoints lm (convexHullIdx lm))
        (hullPoints lm (convexHullIdx lm)) t).length = 3 →
      noncollinearT (tripleOfList ((resolveTriangle
        (hullPoints lm (convexHullIdx lm))
        (hullPoints lm (convexHullIdx lm)) t).map Prod.snd))) :
    swapFaces detector predictor convexHullIdx triangulate A A = .ok A := by
  unfold swapFaces
  rw [swapFacesSt_eq_of_detected detector predictor convexHullIdx triangulate
    ⟨A, A, A⟩ lm lm hd hd]
  show Except.ok (swapFold A lm lm convexHullIdx triangulate A) = Except.ok A
  apply congrArg Except.ok
  simp only [swapFold]
  exact foldl_stepTriangle_self A hwf (hullPoints lm (convexHullIdx lm))
    hbounds (triangulate (hullPoints lm (convexHullIdx lm))) hnc

theorem swapFaces_roundtrip_identity_witness :
    swapFaces testDetector testPredictor testHull testTri testImageA testImageA =
      .ok testImageA :=
  swapFaces_roundtrip_identity testDetector testPredictor testHull testTri
    testImageA testLm (by decide) rfl (by decide) (by decide)

/-- C4: triangles whose three vertices cannot all be resolved by exact
coordinate match against the destination hull points are silently dropped:
`swap_faces` still returns successfully and its result is the fold over
exactly the resolvable triangles (no error, no warp for the dropped
triangles). -/
theorem swapFaces_discards_unresolved {Face : Type}
    (detector : Image → List Face) (predictor : Image → Face → Landmarks)
    (convexHullIdx : Landmarks → List Nat)
    (triangulate : List Pt → List (Triple Pt)) (img1 img2 : Image)
    (lm1 lm2 : Landmarks)
    (hd1 : landmarksOf detector predictor img1 = some lm1)
    (hd2 : landmarksOf detector predictor img2 = some lm2) :
    swapFaces detector predictor convexHullIdx triangulate img1 img2 =
      .ok (((triangulate (hullPoints lm2 (convexHullIdx lm2))).filter
          (fun t => decide ((resolveTriangle
            (hullPoints lm1 (convexHullIdx lm2))
            (hullPoints lm2 (convexHullIdx lm2)) t).length = 3))).foldl
        (stepTriangle img1 (hullPoints lm1 (convexHullIdx lm2))
          (hullPoints lm2 (convexHullIdx lm2))) img2) := by
  unfold swapFaces
  rw [swapFacesSt_eq_of_detected detector predictor convexHullIdx triangulate
    ⟨img1, img2, img2⟩ lm1 lm2 hd1 hd2]
  show Except.ok (swapFold img1 lm1 lm2 convexHullIdx triangulate img2) = _
  apply congrArg Except.ok
  simp only [swapFold]
  exact foldl_filter_eq (stepTriangle img1 (hullPoints lm1 (convexHullIdx lm2))
    (hullPoints lm2 (convexHullIdx lm2)))
    (fun t => decide ((resolveTriangle (hullPoints lm1 (convexHullIdx lm2))
      (hullPoints lm2 (convexHullIdx lm2)) t).length = 3))
    (fun b a hfa => stepTriangle_not3 img1 _ _ b a (of_decide_eq_false hfa))
    _ img2

theorem swapFaces_discards_unresolved_witness :
    swapFaces testDetector testPredictor testHull testTriBad testImageA
      testImageA =
      .ok (((testTriBad (hullPoints testLm (testHull testLm))).filter
          (fun t => decide ((resolveTriangle
            (hullPoints testLm (testHull testLm))
            (hullPoints testLm (testHull testLm)) t).length = 3))).foldl
        (stepTriangle testImageA (hullPoints testLm (testHull testLm))
          (hullPoints testLm (testHull testLm))) testImageA) :=
  swapFaces_discards_unresolved testDetector testPredictor testHull testTriBad
    testImageA testImageA testLm testLm rfl rfl

/-- C8: whenever `swap_faces` returns an image, that image has the same
height and width as the destination input (the channel count is fixed at
three by the pixel type throughout the model, as every buffer is an RGB
image in the source). -/
theorem swapFaces_preserves_dims {Face : Type}
    (detector : Image → List Face) (predictor : Image → Face → Landmarks)
    (convexHullIdx : Landmarks → List Nat)
    (triangulate : List Pt → List (Triple Pt)) (img1 img2 out : Image)
    (hok : swapFaces detector predictor convexHullIdx triangulate img1 img2 =
      .ok out) :
    out.height = img2.height ∧ out.width = img2.width := by
  unfold swapFaces at hok
  cases h1 : landmarksOf detector predictor img1 with
  | none =>
    rw [swapFacesSt_eq_of_noface detector predictor convexHullIdx triangulate
      ⟨img1, img2, img2⟩ (Or.inl h1)] at hok
    exact Except.noConfusion hok
  | some lm1 =>
    cases h2 : landmarksOf detector predictor img2 with
    | none =>
      rw [swapFacesSt_eq_of_noface detector predictor convexHullIdx triangulate
        ⟨img1, img2, img2⟩ (Or.inr h2)] at hok
      exact Except.noConfusion hok
    | some lm2 =>
      rw [swapFacesSt_eq_of_detected detector predictor convexHullIdx
        triangulate ⟨img1, img2, img2⟩ lm1 lm2 h1 h2] at hok
      have hfe : swapFold img1 lm1 lm2 convexHullIdx triangulate img2 = out := by
        injection hok
      rw [← hfe]
      simp only [swapFold]
      exact foldl_stepTriangle_dims img1 (hullPoints lm1 (convexHullIdx lm2))
        (hullPoints lm2 (convexHullIdx lm2)) _ img2

theorem swapFaces_preserves_dims_witness :
    (swapFold testImageA testLm testLm testHull testTriBad testImageA).height =
      testImageA.height ∧
    (swapFold testImageA testLm testLm testHull testTriBad testImageA).width =
      testImageA.width :=
  swapFaces_preserves_dims testDetector testPredictor testHull testTriBad
    testImageA testImageA
    (swapFold testImageA testLm testLm testHull testTriBad testImageA) rfl

/-- C6: for every pixel of the destination bounding rectangle processed by
`warp_triangle`, the stored output pixel equals
`dest_region * (1 - mask) + warped_region * mask`, computed channelwise in
(exact-rational) floating point and brought back to the 8-bit integer
channel depth by rounding to the nearest integer — the binary mask makes
the blend integral, so the nearest-integer rounding and the store's
truncation agree. -/
theorem warpTriangle_composite_formula (img1 img2 : Image) (t1 t2 : Triple Pt)
    (y x : Nat) (hy : y < img2.height)
    (hx : x < (img2.data.getD y []).length)
    (hin : inRectAbs (boundingRect t2) (x : Int) (y : Int) = true) :
    (warpTriangle img1 img2 t1 t2).getPx y x =
      roundPix (blendQ (img2.getPx y x)
        (warpedValue img1 t1 t2 ((x : Int) - (boundingRect t2).x)
          ((y : Int) - (boundingRect t2).y))
        (maskValue t2 ((x : Int) - (boundingRect t2).x)
          ((y : Int) - (boundingRect t2).y))) := by
  have hidx : img2.data.getD y [] = img2.data[y] := by
    rw [getD_eq_get?, List.get?_eq_getElem?, List.getElem?_eq_getElem hy,
      Option.getD_some]
  have hrow : img2.data[y]? = some (img2.data.getD y []) := by
    rw [List.getElem?_eq_getElem hy, hidx]
  have hxe : (img2.data.getD y [])[x]? =
      some ((img2.data.getD y []).getD x (0, 0, 0)) := by
    rw [List.getElem?_eq_getElem hx,
      getD_eq_get? (img2.data.getD y []) x (0, 0, 0), List.get?_eq_getElem?,
      List.getElem?_eq_getElem hx, Option.getD_some]
  rw [warpTriangle_getPx_valid img1 img2 t1 t2 y x (img2.data.getD y [])
    ((img2.data.getD y []).getD x (0, 0, 0)) hrow hxe, if_pos hin]
  have hgp : img2.getPx y x = (img2.data.getD y []).getD x (0, 0, 0) := rfl
  rw [← hgp]
  cases hm : inConvTriB (localTriple t2 (boundingRect t2)).1
      (localTriple t2 (boundingRect t2)).2.1
      (localTriple t2 (boundingRect t2)).2.2
      ((x : Int) - (boundingRect t2).x, (y : Int) - (boundingRect t2).y) with
  | false =>
    rw [maskValue_eq_zero t2 _ _ hm, blendQ_zero, floorPix_toQPix,
      roundPix_toQPix]
  | true =>
    rw [maskValue_eq_one t2 _ _ hm, blendQ_one, floorPix_toQPix,
      roundPix_toQPix]

theorem warpTriangle_composite_formula_witness :
    (warpTriangle testImageA testImageA ((0, 0), (2, 0), (0, 2))
        ((0, 0), (2, 0), (0, 2))).getPx 1 1 =
      roundPix (blendQ (testImageA.getPx 1 1)
        (warpedValue testImageA ((0, 0), (2, 0), (0, 2))
          ((0, 0), (2, 0), (0, 2))
          ((1 : Int) - (boundingRect ((0, 0), (2, 0), (0, 2))).x)
          ((1 : Int) - (boundingRect ((0, 0), (2, 0), (0, 2))).y))
        (maskValue ((0, 0), (2, 0), (0, 2))
          ((1 : Int) - (boundingRect ((0, 0), (2, 0), (0, 2))).x)
          ((1 : Int) - (boundingRect ((0, 0), (2, 0), (0, 2))).y))) :=
  warpTriangle_composite_formula testImageA testImageA
    ((0, 0), (2, 0), (0, 2)) ((0, 0), (2, 0), (0, 2)) 1 1
    (by decide) (by decide) (by decide)

/-- C7: the hull is one index list into the destination landmark set, and
both hull point lists apply the same landmark index at each hull position;
vertex resolution then pairs the destination vertex with the source hull
point at the same resolved hull index, so the i-th source vertex and the
i-th destination vertex of every warped triangle share the landmark
ordering position.  The final conjunct records that `swap_faces` builds
both hull point lists from the single hull computed on the destination
landmarks. -/
theorem swapFaces_hull_correspondence (points1 points2 : Landmarks)
    (hullIdx : List Nat) (i : Nat) (hi : i < hullIdx.length) :
    (hullPoints points1 hullIdx)[i]? =
      some (points1.getD (hullIdx.getD i 0) (0, 0)) ∧
    (hullPoints points2 hullIdx)[i]? =
      some (points2.getD (hullIdx.getD i 0) (0, 0)) ∧
    (∀ pt j, findFirstIdx pt (hullPoints points2 hullIdx) = some j →
      resolveVertex (hullPoints points1 hullIdx) (hullPoints points2 hullIdx)
        pt = some ((hullPoints points1 hullIdx).getD j (0, 0))) ∧
    (∀ (img1 init : Image) (hull : Landmarks → List Nat)
      (tri : List Pt → List (Triple Pt)),
      swapFold img1 points1 points2 hull tri init =
        (tri (hullPoints points2 (hull points2))).foldl
          (stepTriangle img1 (hullPoints points1 (hull points2))
            (hullPoints points2 (hull points2))) init) := by
  have hidx : hullIdx.getD i 0 = hullIdx[i] := by
    rw [getD_eq_get?, List.get?_eq_getElem?, List.getElem?_eq_getElem hi,
      Option.getD_some]
  refine ⟨?_, ?_, ?_, ?_⟩
  · unfold hullPoints
    rw [List.getElem?_map, List.getElem?_eq_getElem hi, Option.map_some', hidx]
  · unfold hullPoints
    rw [List.getElem?_map, List.getElem?_eq_getElem hi, Option.map_some', hidx]
  · intro pt j hfi
    unfold resolveVertex
    rw [hfi]
    rfl
  · intro img1 init hull tri
    rfl

theorem swapFaces_hull_correspondence_witness :
    (hullPoints [((5 : Int), (5 : Int)), (6, 6), (7, 7)] [2, 0])[1]? =
      some (([((5 : Int), (5 : Int)), (6, 6), (7, 7)] : Landmarks).getD
        (([2, 0] : List Nat).getD 1 0) (0, 0)) ∧
    (hullPoints [((0 : Int), (0 : Int)), (2, 0), (0, 2)] [2, 0])[1]? =
      some (([((0 : Int), (0 : Int)), (2, 0), (0, 2)] : Landmarks).getD
        (([2, 0] : List Nat).getD 1 0) (0, 0)) ∧
    (∀ pt j, findFirstIdx pt
        (hullPoints [((0 : Int), (0 : Int)), (2, 0), (0, 2)] [2, 0]) = some j →
      resolveVertex (hullPoints [((5 : Int), (5 : Int)), (6, 6), (7, 7)] [2, 0])
        (hullPoints [((0 : Int), (0 : Int)), (2, 0), (0, 2)] [2, 0]) pt =
        some ((hullPoints [((5 : Int), (5 : Int)), (6, 6), (7, 7)]
          [2, 0]).getD j (0, 0))) ∧
    (∀ (img1 init : Image) (hull : Landmarks → List Nat)
      (tri : List Pt → List (Triple Pt)),
      swapFold img1 [((5 : Int), (5 : Int)), (6, 6), (7, 7)]
          [((0 : Int), (0 : Int)), (2, 0), (0, 2)] hull tri init =
        (tri (hullPoints [((0 : Int), (0 : Int)), (2, 0), (0, 2)]
          (hull [((0 : Int), (0 : Int)), (2, 0), (0, 2)]))).foldl
          (stepTriangle img1
            (hullPoints [((5 : Int), (5 : Int)), (6, 6), (7, 7)]
              (hull [((0 : Int), (0 : Int)), (2, 0), (0, 2)]))
            (hullPoints [((0 : Int), (0 : Int)), (2, 0), (0, 2)]
              (hull [((0 : Int), (0 : Int)), (2, 0), (0, 2)]))) init) :=
  swapFaces_hull_correspondence [(5, 5), (6, 6), (7, 7)]
    [(0, 0), (2, 0), (0, 2)] [2, 0] 1 (by decide)

/-- C5 counterexample: at a concrete successful-decode call starting from
an empty file system, the reference temporary file (`tmp2`) created during
the call is still on disk when the call returns, and its path is handed
back to the caller — so the claim that every temporary file created during
the call is deleted by the end of the call is false on this code. -/
theorem loadAndPrepareImage_leaks_temp :
    (loadAndPrepareImage (some [1]) (fun _ => some testImageA) none id
      ("tmp1") ("tmp2") ⟨[]⟩).1.files = ["tmp2"] ∧
    (loadAndPrepareImage (some [1]) (fun _ => some testImageA) none id
      ("tmp1") ("tmp2") ⟨[]⟩).2.2 = "tmp2" :=
  ⟨rfl, rfl⟩

/-- C5 (amended): the fallback-decode temporary file `tmp1` is deleted
within the call on every exit path, and failure paths leave the file
system unchanged; but on every successful decode exactly one reference
temporary file (`tmp2`) is intentionally created and left on disk, its
path returned to the caller instead of being deleted. -/
theorem loadAndPrepareImage_temp_cleanup (upload : Option (List Nat))
    (imdecode : List Nat → Option Image) (imreadTemp : Option Image)
    (cvt : Image → Image) (tmp1 tmp2 : String) (fs : FS)
    (hfresh : tmp1 ∉ fs.files) (hne : tmp1 ≠ tmp2) :
    tmp1 ∉ (loadAndPrepareImage upload imdecode imreadTemp cvt tmp1 tmp2
      fs).1.files ∧
    ((loadAndPrepareImage upload imdecode imreadTemp cvt tmp1 tmp2 fs).2.1 =
        none →
      (loadAndPrepareImage upload imdecode imreadTemp cvt tmp1 tmp2 fs).1 =
        fs) ∧
    (∀ img, (loadAndPrepareImage upload imdecode imreadTemp cvt tmp1 tmp2
        fs).2.1 = some img →
      (loadAndPrepareImage upload imdecode imreadTemp cvt tmp1 tmp2
        fs).1.files = tmp2 :: fs.files ∧
      (loadAndPrepareImage upload imdecode imreadTemp cvt tmp1 tmp2 fs).2.2 =
        tmp2) := by
  cases upload with
  | none =>
    exact ⟨hfresh, fun _ => rfl, fun img h => Option.noConfusion h⟩
  | some bytes =>
    cases hdec : imdecode bytes with
    | some image =>
      simp only [loadAndPrepareImage, hdec]
      refine ⟨?_, ?_, ?_⟩
      · intro hmem
        rcases List.mem_cons.mp hmem with h | h
        · exact hne h
        · exact hfresh h
      · intro hnone
        exact Option.noConfusion hnone
      · intro img _
        exact ⟨by trivial, by trivial⟩
    | none =>
      cases hread : imreadTemp with
      | none =>
        simp only [loadAndPrepareImage, hdec, hread]
        refine ⟨?_, ?_, ?_⟩
        · rw [List.erase_cons_head]
          exact hfresh
        · intro _
          rw [List.erase_cons_head]
        · intro img himg
          exact Option.noConfusion himg
      | some image =>
        simp only [loadAndPrepareImage, hdec, hread]
        refine ⟨?_, ?_, ?_⟩
        · intro hmem
          rw [List.erase_cons_head] at hmem
          rcases List.mem_cons.mp hmem with h | h
          · exact hne h
          · exact hfresh h
        · intro hnone
          exact Option.noConfusion hnone
        · intro img _
          rw [List.erase_cons_head]
          exact ⟨by trivial, by trivial⟩

theorem loadAndPrepareImage_temp_cleanup_witness :
    "t1" ∉ (loadAndPrepareImage (some [1]) (fun _ => none) (some testImageA)
      id ("t1") ("t2") ⟨["keep"]⟩).1.files ∧
    ((loadAndPrepareImage (some [1]) (fun _ => none) (some testImageA) id
        "t1" "t2" ⟨["keep"]⟩).2.1 = none →
      (loadAndPrepareImage (some [1]) (fun _ => none) (some testImageA) id
        "t1" "t2" ⟨["keep"]⟩).1 = ⟨["keep"]⟩) ∧
    (∀ img, (loadAndPrepareImage (some [1]) (fun _ => none) (some testImageA)
        id ("t1") ("t2") ⟨["keep"]⟩).2.1 = some img →
      (loadAndPrepareImage (some [1]) (fun _ => none) (some testImageA) id
        "t1" "t2" ⟨["keep"]⟩).1.files = "t2" :: ["keep"] ∧
      (loadAndPrepareImage (some [1]) (fun _ => none) (some testImageA) id
        "t1" "t2" ⟨["keep"]⟩).2.2 = "t2") :=
  loadAndPrepareImage_temp_cleanup (some [1]) (fun _ => none)
    (some testImageA) id ("t1") ("t2") ⟨["keep"]⟩ (by decide) (by decide)
